import Mathlib

/-!
Verification of the streaming response decoder of ObsidianOrganizer
(`src/ui/src/services/api.ts`, method `ApiClient.chatStream`).

The embedding works at the level of decoded text: a chunk delivered by the
byte-stream source is modelled as a `List Char`, the concatenated output of
`TextDecoder.decode(value, {stream: true})`.  For a byte stream that is valid
UTF-8 (the only streams the specification's claims range over), the streaming
decoder emits the same concatenated character sequence for every byte-level
chunking, so byte-offset splits are represented faithfully by character-offset
splits of the decoded text.

Generator behaviour is modelled by accumulation: the ordered list of values
the `async *chatStream` generator yields, together with the value it returns
(`finalThreadId`).
-/

set_option autoImplicit false

namespace ObsidianOrganizer

/-- ECMAScript `String.prototype.startsWith` on character lists:
`startsWithL p s` is `true` iff `p` is a prefix of `s`. -/
def startsWithL : List Char → List Char → Bool
  | [], _ => true
  | _ :: _, [] => false
  | p :: ps, c :: cs => p == c && startsWithL ps cs

/-- Whitespace recognised by the model of `String.prototype.trim`: space, tab,
line feed, carriage return, vertical tab and form feed (the ASCII whitespace
of the ECMAScript `TrimString` operation; the protocol never carries the
further Unicode space code points, which are omitted). -/
def isWsChar (c : Char) : Bool :=
  c == ' ' || c == '\t' || c == '\n' || c == '\r' ||
  c == Char.ofNat 11 || c == Char.ofNat 12

/-- ECMAScript `String.prototype.trim`: drop whitespace from both ends. -/
def trimWs (s : List Char) : List Char :=
  ((s.dropWhile isWsChar).reverse.dropWhile isWsChar).reverse

/-- Prepend a character onto the first segment of a segment list (helper for
`splitNl`). -/
def consOnto (c : Char) : List (List Char) → List (List Char)
  | [] => [[c]]
  | l :: ls => (c :: l) :: ls

/-- ECMAScript `String.prototype.split('\n')`: the list of newline-separated
segments, always non-empty (`splitNl [] = [[]]`, matching `''.split('\n')`
returning `['']`). -/
def splitNl : List Char → List (List Char)
  | [] => [[]]
  | c :: rest => if c = '\n' then [] :: splitNl rest else consOnto c (splitNl rest)

/-- The same split, presented as the pair (complete lines, trailing segment):
`splitNl s = (splitBuf s).1 ++ [(splitBuf s).2]`.  This is the form the line
assembler consumes: `lines.pop()` keeps the trailing segment as the new
buffer and leaves the complete lines for dispatch. -/
def splitBuf : List Char → List (List Char) × List Char
  | [] => ([], [])
  | c :: rest =>
    let p := splitBuf rest
    if c = '\n' then ([] :: p.1, p.2)
    else
      match p.1 with
      | [] => ([], c :: p.2)
      | l :: ls => ((c :: l) :: ls, p.2)

/-- Inverse of `splitNl`: interleave the segments with `'\n'`. -/
def joinNl : List (List Char) → List Char
  | [] => []
  | [l] => l
  | l :: l' :: ls => l ++ '\n' :: joinNl (l' :: ls)

/-- The JSON values the host `JSON.parse` can produce for the scalar payloads
of this protocol.  The wire grammar (spec §6) only ever carries a JSON string
literal in a `token` event's `data`, so the model covers the scalar forms
(string, integer number, boolean, null); composite values and fractional
numbers do not occur in any payload considered here. -/
inductive Json where
  | str (s : List Char)
  | num (n : Int)
  | jbool (b : Bool)
  | null
deriving Repr, DecidableEq

/-- Whether a JSON value is a string. -/
def Json.isStr : Json → Bool
  | .str _ => true
  | _ => false

/-- Decode the body of a JSON string literal after the opening quote: returns
the decoded characters and the remainder following the closing quote, or
`none` if the literal is unterminated or has a bad escape.  Escapes follow
RFC 8259: the eight single-character escapes and `\uXXXX`. -/
def parseStrBody : List Char → Option (List Char × List Char)
  | [] => none
  | '"' :: rest => some ([], rest)
  | '\\' :: e :: rest =>
    if e = 'u' then
      match rest with
      | h1 :: h2 :: h3 :: h4 :: rest' =>
        if isHexD h1 && isHexD h2 && isHexD h3 && isHexD h4 then
          match parseStrBody rest' with
          | some (tl, rem) =>
            some (Char.ofNat (4096 * hexVal h1 + 256 * hexVal h2 + 16 * hexVal h3 + hexVal h4) :: tl, rem)
          | none => none
        else none
      | _ => none
    else
      match escChar e with
      | some c =>
        match parseStrBody rest with
        | some (tl, rem) => some (c :: tl, rem)
        | none => none
      | none => none
  | c :: rest =>
    if c.val < 32 then none
    else
      match parseStrBody rest with
      | some (tl, rem) => some (c :: tl, rem)
      | none => none
where
  /-- Whether a character is a hexadecimal digit. -/
  isHexD (c : Char) : Bool :=
    c.isDigit || ('a' ≤ c && c ≤ 'f') || ('A' ≤ c && c ≤ 'F')
  /-- Value of a hexadecimal digit. -/
  hexVal (c : Char) : Nat :=
    if c.isDigit then c.toNat - '0'.toNat
    else if 'a' ≤ c then c.toNat - 'a'.toNat + 10
    else c.toNat - 'A'.toNat + 10
  /-- The single-character JSON escapes. -/
  escChar : Char → Option Char
    | '"' => some '"'
    | '\\' => some '\\'
    | '/' => some '/'
    | 'b' => some (Char.ofNat 8)
    | 'f' => some (Char.ofNat 12)
    | 'n' => some '\n'
    | 'r' => some '\r'
    | 't' => some '\t'
    | _ => none

/-- Numeric value of a digit string. -/
def digitsVal (ds : List Char) : Nat :=
  ds.foldl (fun acc c => 10 * acc + (c.toNat - '0'.toNat)) 0

/-- Parse a JSON integer digit sequence: non-empty, all digits, and no
leading zero (RFC 8259 forbids `042`; `JSON.parse` raises on it). -/
def parseDigits (ds : List Char) : Option Nat :=
  if ds ≠ [] ∧ ds.all Char.isDigit ∧ (ds.head? ≠ some '0' ∨ ds = ['0']) then
    some (digitsVal ds)
  else none

/-- Model of the host `JSON.parse` on the scalar grammar of this protocol:
leading/trailing whitespace is permitted, then exactly one of a string
literal, an integer number, `true`, `false` or `null`, with nothing after it.
Any other input fails (returns `none`, modelling the thrown `SyntaxError`). -/
def jsonParse (s0 : List Char) : Option Json :=
  let s := trimWs s0
  if s = "true".toList then some (.jbool true)
  else if s = "false".toList then some (.jbool false)
  else if s = "null".toList then some .null
  else
    match s with
    | [] => none
    | '"' :: rest =>
      match parseStrBody rest with
      | some (content, []) => some (.str content)
      | _ => none
    | '-' :: ds => (parseDigits ds).map fun n => .num (-(n : Int))
    | c :: _ =>
      if c.isDigit then (parseDigits s).map fun n => .num (n : Int)
      else none

/-- An event record as dispatched by the two-line grammar (spec §4.2):
the pending event type in force when a `data:` line arrived, with the
trimmed payload. -/
structure EventRecord where
  etype : List Char
  data : List Char
deriving Repr, DecidableEq

/-- The dispatcher / producer state of the `while` loop of `chatStream`
(`currentEvent`, `finalThreadId`), together with the ordered list of values
the generator has yielded so far (`tokens`). -/
structure DState where
  currentEvent : List Char
  finalThreadId : List Char
  tokens : List Json
deriving Repr, DecidableEq

/-- The body of `for (const line of lines)` in `chatStream`
(`src/ui/src/services/api.ts:115-138`): an `event:` line stores its trimmed
remainder as the pending event type; a `data:` line dispatches on the pending
type — `token` parses the payload as JSON and yields it on success (a parse
failure is logged and skipped), `done` overwrites `finalThreadId` — and then
resets the pending type; every other line is ignored. -/
def processLine (d : DState) (line : List Char) : DState :=
  if startsWithL "event:".toList line then
    { d with currentEvent := trimWs (line.drop 6) }
  else if startsWithL "data:".toList line then
    let data := trimWs (line.drop 5)
    let d1 :=
      if d.currentEvent = "token".toList then
        match jsonParse data with
        | some t => { d with tokens := d.tokens ++ [t] }
        | none => d
      else if d.currentEvent = "done".toList then
        { d with finalThreadId := data }
      else d
    { d1 with currentEvent := [] }
  else d

/-- Full loop state: the line assembler's pending buffer plus the dispatcher
state. -/
structure SState where
  buffer : List Char
  d : DState
deriving Repr, DecidableEq

/-- One iteration of the `while` loop for one decoded chunk
(`src/ui/src/services/api.ts:111-138`): `buffer += chunk`, split on `'\n'`,
pop the trailing segment back into the buffer, and run the dispatcher over
the complete lines in order. -/
def feedChunk (st : SState) (chunk : List Char) : SState :=
  let lines := splitNl (st.buffer ++ chunk)
  { buffer := lines.getLastD [],
    d := lines.dropLast.foldl processLine st.d }

/-- Run the loop over the whole ordered chunk sequence of the response body
(when the source reports `done`, the loop exits and the remaining buffer is
never consulted). -/
def runChunks (st : SState) (chunks : List (List Char)) : SState :=
  chunks.foldl feedChunk st

/-- The state at entry of the `while` loop: empty buffer, empty pending event
type, `finalThreadId = request.thread_id || ''` (the only falsy string is
`''`, so `Option.getD []` is exact), no token yielded yet. -/
def initState (tid : Option (List Char)) : SState :=
  { buffer := [], d := { currentEvent := [], finalThreadId := tid.getD [], tokens := [] } }

/-- Observable outcome of the streaming loop for a caller-supplied
`thread_id` and a chunk sequence: the ordered yielded tokens and the returned
terminal id. -/
def streamRun (tid : Option (List Char)) (chunks : List (List Char)) :
    List Json × List Char :=
  let st := runChunks (initState tid) chunks
  (st.d.tokens, st.d.finalThreadId)

/-- The request body of `chatStream` (interface `ChatRequest`):
`thread_id` is optional. -/
structure ChatRequest where
  message : List Char
  thread_id : Option (List Char)

/-- The part of the fetch `Response` that `chatStream` consults: the status
(from which `response.ok` is `200 ≤ status ≤ 299`), the status text, and the
body as an ordered sequence of decoded chunks (`none` models a response
without a readable body). -/
structure HttpResponse where
  status : Nat
  statusText : List Char
  body : Option (List (List Char))

/-- `response.ok`: status in the inclusive range 200–299. -/
def respOk (r : HttpResponse) : Bool :=
  decide (200 ≤ r.status) && decide (r.status ≤ 299)

/-- `ApiClient.chatStream` (`src/ui/src/services/api.ts:81-145`) for a given
response: a non-ok status throws `API error: ...` before the body is touched;
a missing body throws `No response body`; otherwise the loop runs over the
chunks and the generator returns `finalThreadId`.  `Except.error` models the
thrown `Error` (the surrounding `catch` re-wraps it with the same message). -/
def chatStream (r : HttpResponse) (req : ChatRequest) :
    Except (List Char) (List Json × List Char) :=
  if respOk r = false then .error ("API error: ".toList ++ r.statusText)
  else
    match r.body with
    | none => .error "No response body".toList
    | some chunks => .ok (streamRun req.thread_id chunks)

/-- The event dispatcher of spec §4.2 as a record producer: the list of
`EventRecord`s dispatched when the given complete lines are processed in
order starting from pending event type `cur`.  A record is produced exactly
when the loop body of `chatStream` takes its `data:` branch, with the pending
type in force at that moment. -/
def dispatchRecords (cur : List Char) : List (List Char) → List EventRecord
  | [] => []
  | l :: ls =>
    if startsWithL "event:".toList l then
      dispatchRecords (trimWs (l.drop 6)) ls
    else if startsWithL "data:".toList l then
      { etype := cur, data := trimWs (l.drop 5) } :: dispatchRecords [] ls
    else dispatchRecords cur ls

/-- The complete lines of a whole stream: every newline-terminated line of
the concatenated text, in order. -/
def linesOf (chunks : List (List Char)) : List (List Char) :=
  (splitBuf chunks.flatten).1

/-- The event records a whole stream dispatches. -/
def recordsOf (chunks : List (List Char)) : List EventRecord :=
  dispatchRecords [] (linesOf chunks)

/-- The line assembler in isolation (spec §4.1, lines 111–113 of the source):
state is (pending buffer, lines emitted so far); a feed appends the chunk,
splits, keeps the trailing segment and emits the rest. -/
def feedLine (st : List Char × List (List Char)) (chunk : List Char) :
    List Char × List (List Char) :=
  let lines := splitNl (st.1 ++ chunk)
  (lines.getLastD [], st.2 ++ lines.dropLast)

/-- Feed a chunk sequence to the line assembler from the empty initial
state. -/
def assembleRun (chunks : List (List Char)) : List Char × List (List Char) :=
  chunks.foldl feedLine ([], [])

/-! ### Properties of the split and the line assembler -/

theorem consOnto_ne_nil (c : Char) (L : List (List Char)) : consOnto c L ≠ [] := by
  cases L <;> simp [consOnto]

theorem splitNl_ne_nil (s : List Char) : splitNl s ≠ [] := by
  cases s with
  | nil => simp [splitNl]
  | cons c rest =>
    by_cases h : c = '\n' <;> simp [splitNl, h, consOnto_ne_nil]

theorem splitBuf_spec : ∀ s : List Char, (splitBuf s).1 ++ [(splitBuf s).2] = splitNl s
  | [] => rfl
  | c :: rest => by
    have ih := splitBuf_spec rest
    by_cases h : c = '\n'
    · simp [splitBuf, splitNl, h, ← ih]
    · cases hp : (splitBuf rest).1 with
      | nil =>
        rw [hp] at ih
        simp at ih
        simp [splitBuf, splitNl, h, hp, ← ih, consOnto]
      | cons l ls =>
        rw [hp] at ih
        simp [splitBuf, splitNl, h, hp, ← ih, consOnto]

theorem splitBuf_append : ∀ (s t : List Char),
    splitBuf (s ++ t) =
      ((splitBuf s).1 ++ (splitBuf ((splitBuf s).2 ++ t)).1,
       (splitBuf ((splitBuf s).2 ++ t)).2)
  | [], t => by simp [splitBuf]
  | c :: rest, t => by
    have ih := splitBuf_append rest t
    by_cases h : c = '\n'
    · simp [splitBuf, h, ih]
    · cases hp : (splitBuf rest).1 with
      | nil =>
        rw [hp] at ih
        cases hq : (splitBuf ((splitBuf rest).2 ++ t)).1 with
        | nil =>
          rw [hq] at ih
          simp at ih
          simp [splitBuf, h, hp, ih, hq]
        | cons l ls =>
          rw [hq] at ih
          simp at ih
          simp [splitBuf, h, hp, ih, hq]
      | cons l ls =>
        rw [hp] at ih
        simp [splitBuf, h, hp, ih]

theorem splitBuf_snd_no_nl : ∀ s : List Char, '\n' ∉ (splitBuf s).2
  | [] => by simp [splitBuf]
  | c :: rest => by
    have ih := splitBuf_snd_no_nl rest
    by_cases h : c = '\n'
    · simp [splitBuf, h, ih]
    · cases hp : (splitBuf rest).1 with
      | nil => simp [splitBuf, h, hp, ih, Ne.symm h]
      | cons l ls => simp [splitBuf, h, hp, ih]

theorem splitBuf_fst_no_nl : ∀ (s : List Char) (l : List Char), l ∈ (splitBuf s).1 → '\n' ∉ l
  | [], l => by simp [splitBuf]
  | c :: rest, l => by
    have ih := splitBuf_fst_no_nl rest
    by_cases h : c = '\n'
    · simp only [splitBuf, if_pos h]
      intro hm
      rcases List.mem_cons.mp hm with h1 | h1
      · subst h1; simp
      · exact ih l h1
    · cases hp : (splitBuf rest).1 with
      | nil => simp [splitBuf, h, hp]
      | cons l0 ls =>
        simp only [splitBuf, if_neg h, hp]
        intro hm
        rcases List.mem_cons.mp hm with h1 | h1
        · subst h1
          have := ih l0 (by rw [hp]; exact List.mem_cons_self _ _)
          simp [this, Ne.symm h]
        · exact ih l (by rw [hp]; exact List.mem_cons_of_mem _ h1)

theorem splitBuf_of_no_nl : ∀ s : List Char, '\n' ∉ s → splitBuf s = ([], s)
  | [], _ => rfl
  | c :: rest, h => by
    have hc : c ≠ '\n' := fun hc => h (hc ▸ List.mem_cons_self _ _)
    have ih := splitBuf_of_no_nl rest (fun hm => h (List.mem_cons_of_mem _ hm))
    simp [splitBuf, hc, ih]

theorem joinNl_consOnto (c : Char) : ∀ L : List (List Char), joinNl (consOnto c L) = c :: joinNl L
  | [] => rfl
  | [l] => rfl
  | l :: l' :: ls => by simp [consOnto, joinNl]

theorem joinNl_splitNl : ∀ s : List Char, joinNl (splitNl s) = s
  | [] => rfl
  | c :: rest => by
    have ih := joinNl_splitNl rest
    by_cases h : c = '\n'
    · subst h
      obtain ⟨l, ls, hls⟩ := List.exists_cons_of_ne_nil (splitNl_ne_nil rest)
      rw [hls] at ih
      simp only [splitNl, if_pos rfl, hls, joinNl, List.nil_append]
      simp [ih]
    · simp [splitNl, h, joinNl_consOnto, ih]

theorem feedChunk_eq (st : SState) (c : List Char) :
    feedChunk st c =
      { buffer := (splitBuf (st.buffer ++ c)).2,
        d := (splitBuf (st.buffer ++ c)).1.foldl processLine st.d } := by
  simp only [feedChunk, ← splitBuf_spec (st.buffer ++ c)]
  rw [List.dropLast_concat]
  simp

theorem feed_merge (st : SState) (a b : List Char) :
    feedChunk (feedChunk st a) b = feedChunk st (a ++ b) := by
  rw [feedChunk_eq, feedChunk_eq, feedChunk_eq]
  simp only []
  rw [← List.append_assoc, splitBuf_append (st.buffer ++ a) b]
  simp [List.foldl_append]

theorem runChunks_cons (st : SState) (a : List Char) (l : List (List Char)) :
    runChunks st (a :: l) = runChunks (feedChunk st a) l := rfl

theorem runChunks_flatten : ∀ (chunks : List (List Char)) (a : List Char) (st : SState),
    runChunks st (a :: chunks) = feedChunk st (a ++ chunks.flatten)
  | [], a, st => by simp [runChunks]
  | b :: cs, a, st => by
    rw [runChunks_cons, runChunks_flatten cs b (feedChunk st a), feed_merge]
    simp

theorem runChunks_d_eq (tid : Option (List Char)) (chunks : List (List Char)) :
    (runChunks (initState tid) chunks).d =
      (linesOf chunks).foldl processLine (initState tid).d := by
  cases chunks with
  | nil => simp [runChunks, linesOf, splitBuf]
  | cons a cs =>
    rw [runChunks_flatten, feedChunk_eq]
    simp [linesOf, initState]

theorem runChunks_buffer_no_nl (tid : Option (List Char)) (chunks : List (List Char)) :
    '\n' ∉ (runChunks (initState tid) chunks).buffer := by
  cases chunks with
  | nil => simp [runChunks, initState]
  | cons a cs =>
    rw [runChunks_flatten, feedChunk_eq]
    exact splitBuf_snd_no_nl _

/-! ### Properties of the dispatcher step -/

theorem bool_not_true {b : Bool} (h : b = false) : ¬ b = true := by
  intro ht
  rw [ht] at h
  exact Bool.noConfusion h

theorem bool_not_false {b : Bool} (h : b = true) : ¬ b = false := by
  intro hf
  rw [hf] at h
  exact Bool.noConfusion h

theorem data_not_event {l : List Char} (hd : startsWithL "data:".toList l = true) :
    startsWithL "event:".toList l = false := by
  cases l with
  | nil => simp [startsWithL] at hd
  | cons c cs =>
    simp [startsWithL] at hd ⊢
    intro hc
    rw [← hc] at hd
    simp at hd

theorem processLine_data_resets (d : DState) (l : List Char)
    (hd : startsWithL "data:".toList l = true) :
    (processLine d l).currentEvent = [] := by
  have he := data_not_event hd
  simp only [processLine, he, hd]
  simp

theorem processLine_done (d : DState) (l : List Char)
    (hd : startsWithL "data:".toList l = true)
    (hc : d.currentEvent = "done".toList) :
    processLine d l =
      { d with finalThreadId := trimWs (l.drop 5), currentEvent := [] } := by
  have he := data_not_event hd
  have ht : d.currentEvent ≠ "token".toList := by rw [hc]; decide
  simp only [processLine]
  rw [if_neg (bool_not_true he), if_pos hd, if_neg ht, if_pos hc]

theorem processLine_malformed (d : DState) (l : List Char)
    (hd : startsWithL "data:".toList l = true)
    (hc : d.currentEvent = "token".toList)
    (hp : jsonParse (trimWs (l.drop 5)) = none) :
    processLine d l = { d with currentEvent := [] } := by
  have he := data_not_event hd
  simp only [processLine]
  rw [if_neg (bool_not_true he), if_pos hd, if_pos hc, hp]

theorem processLine_no_pending (d : DState) (l : List Char)
    (hd : startsWithL "data:".toList l = true)
    (hc : d.currentEvent = []) :
    processLine d l = d := by
  have he := data_not_event hd
  have ht : d.currentEvent ≠ "token".toList := by rw [hc]; decide
  have hn : d.currentEvent ≠ "done".toList := by rw [hc]; decide
  have h1 : processLine d l = { d with currentEvent := [] } := by
    simp only [processLine]
    rw [if_neg (bool_not_true he), if_pos hd, if_neg ht, if_neg hn]
  rw [h1, ← hc]

theorem processLine_data_threadId (d : DState) (l : List Char)
    (hd : startsWithL "data:".toList l = true)
    (hn : d.currentEvent ≠ "done".toList) :
    (processLine d l).finalThreadId = d.finalThreadId := by
  have he := data_not_event hd
  simp only [processLine]
  rw [if_neg (bool_not_true he), if_pos hd]
  by_cases ht : d.currentEvent = "token".toList
  · rw [if_pos ht]
    cases jsonParse (trimWs (l.drop 5)) <;> rfl
  · rw [if_neg ht, if_neg hn]

theorem foldl_processLine_threadId : ∀ (ls : List (List Char)) (d : DState),
    (∀ e ∈ dispatchRecords d.currentEvent ls, e.etype ≠ "done".toList) →
    (ls.foldl processLine d).finalThreadId = d.finalThreadId
  | [], _, _ => rfl
  | l :: ls, d, h => by
    rw [List.foldl_cons]
    by_cases he : startsWithL "event:".toList l = true
    · have hrec : dispatchRecords d.currentEvent (l :: ls) =
          dispatchRecords (trimWs (l.drop 6)) ls := by
        simp only [dispatchRecords]
        rw [if_pos he]
      have hstep : processLine d l = { d with currentEvent := trimWs (l.drop 6) } := by
        simp only [processLine]
        rw [if_pos he]
      rw [hstep]
      exact foldl_processLine_threadId ls _ (by rw [hrec] at h; exact h)
    · by_cases hd : startsWithL "data:".toList l = true
      · have hef : startsWithL "event:".toList l = false := by
          cases hb : startsWithL "event:".toList l
          · rfl
          · exact absurd hb he
        have hrec : dispatchRecords d.currentEvent (l :: ls) =
            { etype := d.currentEvent, data := trimWs (l.drop 5) } :: dispatchRecords [] ls := by
          simp only [dispatchRecords]
          rw [if_neg (bool_not_true hef), if_pos hd]
        have hn : d.currentEvent ≠ "done".toList := by
          have := h { etype := d.currentEvent, data := trimWs (l.drop 5) }
            (by rw [hrec]; exact List.mem_cons_self _ _)
          simpa using this
        have hrest : ∀ e ∈ dispatchRecords (processLine d l).currentEvent ls,
            e.etype ≠ "done".toList := by
          rw [processLine_data_resets d l hd]
          intro e hme
          exact h e (by rw [hrec]; exact List.mem_cons_of_mem _ hme)
        rw [foldl_processLine_threadId ls _ hrest]
        exact processLine_data_threadId d l hd hn
      · have hef : startsWithL "event:".toList l = false := by
          cases hb : startsWithL "event:".toList l
          · rfl
          · exact absurd hb he
        have hdf : startsWithL "data:".toList l = false := by
          cases hb : startsWithL "data:".toList l
          · rfl
          · exact absurd hb hd
        have hrec : dispatchRecords d.currentEvent (l :: ls) =
            dispatchRecords d.currentEvent ls := by
          simp only [dispatchRecords]
          rw [if_neg (bool_not_true hef), if_neg (bool_not_true hdf)]
        have hstep : processLine d l = d := by
          simp only [processLine]
          rw [if_neg (bool_not_true hef), if_neg (bool_not_true hdf)]
        rw [hstep]
        exact foldl_processLine_threadId ls d (by rw [hrec] at h; exact h)

/-! ### Further shared lemmas -/

theorem feedChunk_d_no_nl (st : SState) (c : List Char)
    (hb : '\n' ∉ st.buffer) (hc : '\n' ∉ c) : (feedChunk st c).d = st.d := by
  rw [feedChunk_eq]
  rw [splitBuf_of_no_nl (st.buffer ++ c) (by simp [hb, hc])]
  rfl

theorem feedLine_eq (st : List Char × List (List Char)) (c : List Char) :
    feedLine st c = ((splitBuf (st.1 ++ c)).2, st.2 ++ (splitBuf (st.1 ++ c)).1) := by
  simp only [feedLine, ← splitBuf_spec (st.1 ++ c)]
  rw [List.dropLast_concat]
  simp

theorem assemble_spec : ∀ (chunks : List (List Char)) (b : List Char) (out : List (List Char)),
    '\n' ∉ b →
    chunks.foldl feedLine (b, out) =
      ((splitBuf (b ++ chunks.flatten)).2, out ++ (splitBuf (b ++ chunks.flatten)).1)
  | [], b, out, hb => by simp [splitBuf_of_no_nl b hb]
  | c :: cs, b, out, hb => by
    rw [List.foldl_cons, feedLine_eq]
    rw [assemble_spec cs _ _ (splitBuf_snd_no_nl _)]
    rw [List.flatten_cons, ← List.append_assoc, splitBuf_append (b ++ c) cs.flatten]
    simp

theorem assembleRun_eq (chunks : List (List Char)) :
    assembleRun chunks = ((splitBuf chunks.flatten).2, (splitBuf chunks.flatten).1) := by
  have h := assemble_spec chunks [] [] (by simp)
  simpa [assembleRun] using h

/-! ### The claims -/

/-- Claim C1: for every byte stream that encodes a valid sequence of events
and every way of splitting it into chunks at arbitrary offsets, feeding the
chunks one at a time to `chatStream` yields exactly the same ordered token
sequence and the same terminal id as feeding the entire stream as one chunk.
(Proved for all character streams, with no validity restriction.) -/
theorem C1_chunk_boundary_invariance (tid : Option (List Char)) (chunks : List (List Char)) :
    streamRun tid chunks = streamRun tid [chunks.flatten] := by
  cases chunks with
  | nil => rfl
  | cons a cs =>
    simp only [streamRun, runChunks_flatten]
    simp [List.flatten_cons]

/-- Claim C2 (code bug): on the stream `event: token\ndata: 42\n\n` the
generator yields the JSON number `42`, which is not a string, although the
function's declared type `AsyncGenerator<string, string, unknown>` and the
spec say every yielded token is a string: `JSON.parse`'s result is yielded
without being narrowed to a string. -/
theorem C2_token_event_yields_nonstring :
    chatStream
        { status := 200, statusText := [],
          body := some ["event: token\ndata: 42\n\n".toList] }
        { message := [], thread_id := none } =
      .ok ([Json.num 42], []) ∧ (Json.num 42).isStr = false :=
  ⟨rfl, rfl⟩

/-- Claim C3: the input
`event: token\ndata: "A"\n\nevent: token\ndata: "B"\n\nevent: done\ndata: t-123\n\n`
yields exactly the tokens `"A"` then `"B"`, in that order, and the terminal
result is `"t-123"`. -/
theorem C3_two_tokens_then_done :
    chatStream
        { status := 200, statusText := [],
          body := some
            ["event: token\ndata: \"A\"\n\nevent: token\ndata: \"B\"\n\nevent: done\ndata: t-123\n\n".toList] }
        { message := "hi".toList, thread_id := none } =
      .ok ([Json.str "A".toList, Json.str "B".toList], "t-123".toList) :=
  rfl

/-- Claim C4: a `token` event whose data fails JSON decoding yields no token,
raises no failure, and only resets the pending event type, so processing
continues with the subsequent events; in particular
`event: token\ndata: not-json\n\nevent: token\ndata: "B"\n\n` yields exactly
the one token `"B"`. -/
theorem C4_malformed_payload_skipped :
    (∀ (d : DState) (l : List Char),
        startsWithL "data:".toList l = true →
        d.currentEvent = "token".toList →
        jsonParse (trimWs (l.drop 5)) = none →
        processLine d l = { d with currentEvent := [] }) ∧
    streamRun none ["event: token\ndata: not-json\n\nevent: token\ndata: \"B\"\n\n".toList] =
      ([Json.str "B".toList], []) :=
  ⟨processLine_malformed, rfl⟩

/-- Witness for C4 at a concrete malformed `token` payload. -/
theorem C4_malformed_payload_skipped_witness :
    processLine { currentEvent := "token".toList, finalThreadId := [], tokens := [] }
        "data: not-json".toList =
      { currentEvent := [], finalThreadId := [], tokens := [] } :=
  C4_malformed_payload_skipped.1
    { currentEvent := "token".toList, finalThreadId := [], tokens := [] }
    "data: not-json".toList (by decide) rfl (by decide)

/-- Claim C5: a response with a non-success status makes `chatStream` fail
with the transport error `API error: ...` and yield no tokens, whatever the
body holds — the body is never decoded. -/
theorem C5_non2xx_short_circuit (status : Nat) (stext : List Char)
    (body : Option (List (List Char))) (req : ChatRequest)
    (h : respOk { status := status, statusText := stext, body := body } = false) :
    chatStream { status := status, statusText := stext, body := body } req =
      .error ("API error: ".toList ++ stext) := by
  simp [chatStream, h]

/-- Witness for C5: status 500 with a non-empty body. -/
theorem C5_non2xx_short_circuit_witness :
    chatStream
        { status := 500, statusText := "Internal Server Error".toList,
          body := some ["event: token\ndata: \"A\"\n\n".toList] }
        { message := [], thread_id := none } =
      .error ("API error: ".toList ++ "Internal Server Error".toList) :=
  C5_non2xx_short_circuit 500 "Internal Server Error".toList
    (some ["event: token\ndata: \"A\"\n\n".toList])
    { message := [], thread_id := none } (by decide)

/-- Claim C6: if a stream dispatches no `done` event, `chatStream` completes
normally and returns the caller-supplied `thread_id` (empty when none was
supplied). -/
theorem C6_no_done_falls_back (req : ChatRequest) (stext : List Char)
    (chunks : List (List Char))
    (h : ∀ e ∈ recordsOf chunks, e.etype ≠ "done".toList) :
    chatStream { status := 200, statusText := stext, body := some chunks } req =
      .ok ((streamRun req.thread_id chunks).1, req.thread_id.getD []) := by
  have h2 : (streamRun req.thread_id chunks).2 = req.thread_id.getD [] := by
    show (runChunks (initState req.thread_id) chunks).d.finalThreadId = req.thread_id.getD []
    rw [runChunks_d_eq,
      foldl_processLine_threadId (linesOf chunks) (initState req.thread_id).d h]
    rfl
  simp only [chatStream, if_neg (bool_not_false rfl)]
  show Except.ok (streamRun req.thread_id chunks) = _
  rw [← h2]

/-- Witness for C6: a one-token stream with a caller-supplied id. -/
theorem C6_no_done_falls_back_witness :
    chatStream
        { status := 200, statusText := [],
          body := some ["event: token\ndata: \"A\"\n\n".toList] }
        { message := [], thread_id := some "xyz".toList } =
      .ok ([Json.str "A".toList], "xyz".toList) := by
  rw [C6_no_done_falls_back { message := [], thread_id := some "xyz".toList } []
    ["event: token\ndata: \"A\"\n\n".toList] (by decide)]
  rfl

/-- Claim C7: every `data:` line resets the pending event type to empty after
dispatch, so of two consecutive `data:` lines after a single `event: token`
line only the first can yield a token — the second leaves the state entirely
unchanged. -/
theorem C7_single_data_per_event :
    (∀ (d : DState) (l : List Char),
        startsWithL "data:".toList l = true → (processLine d l).currentEvent = []) ∧
    (∀ (d : DState) (l1 l2 : List Char),
        startsWithL "data:".toList l1 = true → startsWithL "data:".toList l2 = true →
        processLine (processLine (processLine d "event: token".toList) l1) l2 =
          processLine (processLine d "event: token".toList) l1) := by
  refine ⟨processLine_data_resets, ?_⟩
  intro d l1 l2 h1 h2
  exact processLine_no_pending _ l2 h2 (processLine_data_resets _ l1 h1)

/-- Witness for C7 at concrete lines. -/
theorem C7_single_data_per_event_witness :
    (processLine { currentEvent := "token".toList, finalThreadId := [], tokens := [] }
        "data: \"X\"".toList).currentEvent = [] ∧
    processLine (processLine (processLine
          { currentEvent := [], finalThreadId := [], tokens := [] }
          "event: token".toList) "data: \"X\"".toList) "data: \"Y\"".toList =
      processLine (processLine { currentEvent := [], finalThreadId := [], tokens := [] }
          "event: token".toList) "data: \"X\"".toList :=
  ⟨C7_single_data_per_event.1 _ _ (by decide),
   C7_single_data_per_event.2 _ _ _ (by decide) (by decide)⟩

/-- Claim C8: a stream whose text ends in a trailing fragment with no
terminating newline behaves exactly as the stream without that fragment: the
fragment produces no line, no event record, no token and no change to the
terminal result. -/
theorem C8_trailing_partial_discarded (tid : Option (List Char)) (t s : List Char)
    (h : '\n' ∉ s) :
    linesOf [t ++ s] = linesOf [t] ∧
    recordsOf [t ++ s] = recordsOf [t] ∧
    streamRun tid [t ++ s] = streamRun tid [t] := by
  have hl : linesOf [t ++ s] = linesOf [t] := by
    simp only [linesOf, List.flatten_cons, List.flatten_nil, List.append_nil]
    rw [splitBuf_append t s,
      splitBuf_of_no_nl ((splitBuf t).2 ++ s) (by simp [splitBuf_snd_no_nl t, h])]
    simp
  refine ⟨hl, by simp [recordsOf, hl], ?_⟩
  simp only [streamRun]
  rw [runChunks_d_eq, runChunks_d_eq, hl]

/-- Witness for C8: a complete event followed by a mid-line fragment. -/
theorem C8_trailing_partial_discarded_witness :
    linesOf ["event: token\ndata: \"A\"\n\n".toList ++ "event: do".toList] =
      linesOf ["event: token\ndata: \"A\"\n\n".toList] ∧
    recordsOf ["event: token\ndata: \"A\"\n\n".toList ++ "event: do".toList] =
      recordsOf ["event: token\ndata: \"A\"\n\n".toList] ∧
    streamRun none ["event: token\ndata: \"A\"\n\n".toList ++ "event: do".toList] =
      streamRun none ["event: token\ndata: \"A\"\n\n".toList] :=
  C8_trailing_partial_discarded none "event: token\ndata: \"A\"\n\n".toList
    "event: do".toList (by decide)

/-- Claim C9: after feeding any chunk sequence to the line assembler, the
pending buffer is exactly the newline-free suffix of all text seen so far
that follows the last newline, and the lines emitted so far are exactly the
newline-delimited segments preceding it, each emitted once and in order. -/
theorem C9_assembler_invariant (chunks : List (List Char)) :
    (assembleRun chunks).2 ++ [(assembleRun chunks).1] = splitNl chunks.flatten ∧
    '\n' ∉ (assembleRun chunks).1 ∧
    (∀ l ∈ (assembleRun chunks).2, '\n' ∉ l) ∧
    joinNl ((assembleRun chunks).2 ++ [(assembleRun chunks).1]) = chunks.flatten := by
  rw [assembleRun_eq]
  refine ⟨splitBuf_spec _, splitBuf_snd_no_nl _, fun l hl => splitBuf_fst_no_nl _ l hl, ?_⟩
  rw [splitBuf_spec _, joinNl_splitNl]

/-- Claim C10: a `done` event does not terminate processing — it only
records its payload as the new terminal id and resets the pending type, so
later `token` events still yield their tokens in order; with two `done`
events the terminal result is the data of the last one. -/
theorem C10_done_not_terminating :
    (∀ (d : DState) (l : List Char),
        startsWithL "data:".toList l = true →
        d.currentEvent = "done".toList →
        processLine d l =
          { d with finalThreadId := trimWs (l.drop 5), currentEvent := [] }) ∧
    streamRun none
        ["event: token\ndata: \"A\"\n\nevent: done\ndata: t-1\n\nevent: token\ndata: \"B\"\n\nevent: done\ndata: t-2\n\n".toList] =
      ([Json.str "A".toList, Json.str "B".toList], "t-2".toList) :=
  ⟨processLine_done, rfl⟩

/-- Witness for C10 at a concrete `done` dispatch. -/
theorem C10_done_not_terminating_witness :
    processLine
        { currentEvent := "done".toList, finalThreadId := "t-0".toList,
          tokens := [Json.str "A".toList] } "data: t-9".toList =
      { currentEvent := [], finalThreadId := "t-9".toList,
        tokens := [Json.str "A".toList] } :=
  C10_done_not_terminating.1
    { currentEvent := "done".toList, finalThreadId := "t-0".toList,
      tokens := [Json.str "A".toList] } "data: t-9".toList (by decide) rfl

end ObsidianOrganizer
